import Mathlib

/-!
Verification of the ambit cardiovascular-mechanics code: a shallow embedding of
the Newton solver loop (modules/solver/solver_nonlin.py) and of the 0D
cardiovascular model base class (modules/flow0d/cardiovascular0D.py), together
with theorems settling the specification claims about them.
-/

namespace Ambit

/-! ## Newton solver loop (solver_nonlin.py, `solver_nonlinear.newton` and
`solver_nonlinear_constraint_monolithic.newton`)

The loop control of both `newton` methods is identical in the aspects modelled
here (iteration counter, PTC factor, divergence-continuation reset, retry
counter, the `while ... else raise RuntimeError` exit).  The per-iteration
numerics (assembly, linear solve, `sol_utils.check_converged`,
`sol_utils.catch_solver_errors`, the `np.random.uniform` draw) are abstracted
into an observation record supplied per iteration; the full unknown tuple
(u, p, s) is abstracted into a single rational snapshot, since the loop only
copies it wholesale (`reset_step`). -/

/-- Per-iteration observations: the numbers the loop body obtains from the
assembly/solve/convergence-check collaborators during one iteration. -/
structure IterObs where
  u_next : ℚ
  resnorm : ℚ
  err : Bool
  randfac : ℚ
  converged : Bool
deriving DecidableEq

/-- Solver configuration relevant to the Newton loop control. -/
structure NewtonConfig where
  maxiter0 : ℕ
  divcontPTC : Bool
  PTC0 : Bool
  k_PTC_initial : ℚ
  randlo : ℚ
  randhi : ℚ
  u_start : ℚ
deriving DecidableEq

/-- Mutable state of the Newton loop (iteration counter `it`, `self.maxiter`,
the PTC factor `k_PTC`, the retry counter `counter_adapt`, the `self.PTC`
flag, `struct_res_u_norm_last`, and the unknown snapshot `u`). -/
structure NewtonState where
  it : ℕ
  maxiter : ℕ
  k_PTC : ℚ
  counter_adapt : ℕ
  PTC : Bool
  res_last : ℚ
  u : ℚ
deriving DecidableEq

/-- State at loop entry: `it = 0`, `k_PTC = self.k_PTC_initial`,
`counter_adapt = 0`; `u_start` is a copy of the incoming unknowns. -/
def initState (cfg : NewtonConfig) : NewtonState :=
  ⟨0, cfg.maxiter0, cfg.k_PTC_initial, 0, cfg.PTC0, 0, cfg.u_start⟩

/-- One pass through the Newton loop body (solver_nonlin.py lines 249-439 resp.
693-1084): update the unknowns, increment `it`, apply the PTC factor update,
then the `divergence_continue == 'PTC'` block (set `maxiter` to 250, on a
caught solver error reset `it`, `k_PTC`, the unknowns, and bump
`counter_adapt`), then the convergence bookkeeping. -/
def newtonBody (cfg : NewtonConfig) (s : NewtonState) (o : IterObs) : NewtonState :=
  let it1 := s.it + 1
  let k1 := if s.PTC = true ∧ 1 < it1 ∧ 0 < s.res_last then
      s.k_PTC * (o.resnorm / s.res_last) else s.k_PTC
  let s1 : NewtonState :=
    { it := it1, maxiter := s.maxiter, k_PTC := k1, counter_adapt := s.counter_adapt,
      PTC := s.PTC, res_last := o.resnorm, u := o.u_next }
  let s2 : NewtonState :=
    if cfg.divcontPTC = true then
      if o.err = true then
        { s1 with
          it := 0, maxiter := 250, k_PTC := cfg.k_PTC_initial * o.randfac,
          PTC := true, u := cfg.u_start, counter_adapt := s.counter_adapt + 1 }
      else
        { s1 with maxiter := 250 }
    else s1
  if o.converged = true ∧ cfg.divcontPTC = true then
    { s2 with PTC := false, counter_adapt := 0 }
  else s2

/-- Outcome of a Newton run: convergence (loop `break`), the fatal
`RuntimeError` of the `while ... else` clause (carrying the iteration count of
the message), or exhaustion of the supplied observation list. -/
inductive NewtonResult where
  | converged (s : NewtonState)
  | fatal (it : ℕ)
  | outOfFuel (s : NewtonState)
deriving DecidableEq

/-- The `while it < self.maxiter and counter_adapt < max_adapt` loop with
`max_adapt = 50`; its `else` clause raises `RuntimeError`. -/
def newtonRun (cfg : NewtonConfig) : List IterObs → NewtonState → NewtonResult
  | obs, s =>
    if s.it < s.maxiter ∧ s.counter_adapt < 50 then
      match obs with
      | [] => NewtonResult.outOfFuel s
      | o :: rest =>
        if o.converged = true then NewtonResult.converged (newtonBody cfg s o)
        else newtonRun cfg rest (newtonBody cfg s o)
    else NewtonResult.fatal s.it

/-- A whole Newton call: run the loop from the initial state. -/
def newton (cfg : NewtonConfig) (obs : List IterObs) : NewtonResult :=
  newtonRun cfg obs (initState cfg)

theorem newtonBody_noPTC (cfg : NewtonConfig) (s : NewtonState) (o : IterObs)
    (hdc : cfg.divcontPTC = false) :
    (newtonBody cfg s o).it = s.it + 1 ∧
    (newtonBody cfg s o).maxiter = s.maxiter ∧
    (newtonBody cfg s o).counter_adapt = s.counter_adapt := by
  simp [newtonBody, hdc]

theorem newtonRun_fatal_aux (cfg : NewtonConfig) (hdc : cfg.divcontPTC = false) :
    ∀ (obs : List IterObs) (s : NewtonState),
      (∀ o ∈ obs, o.converged = false) →
      s.maxiter ≤ s.it + obs.length →
      s.counter_adapt < 50 →
      s.it ≤ s.maxiter →
      newtonRun cfg obs s = NewtonResult.fatal s.maxiter := by
  intro obs
  induction obs with
  | nil =>
    intro s _ hlen hcnt hle
    have hit : s.it = s.maxiter := le_antisymm hle (by simpa using hlen)
    rw [newtonRun]
    simp [hit]
  | cons o rest ih =>
    intro s hconv hlen hcnt hle
    by_cases hlt : s.it < s.maxiter
    · rw [newtonRun]
      have hco : o.converged = false := hconv o (by simp)
      simp only [hlt, hcnt, and_self, if_true, hco]
      obtain ⟨h1, h2, h3⟩ := newtonBody_noPTC cfg s o hdc
      have := ih (newtonBody cfg s o)
        (fun x hx => hconv x (List.mem_cons_of_mem _ hx))
        (by rw [h1, h2]; simpa [Nat.add_assoc, Nat.add_comm 1 rest.length] using hlen)
        (by rw [h3]; exact hcnt)
        (by rw [h1, h2]; omega)
      rw [h2] at this
      simpa [hco] using this
    · have hit : s.it = s.maxiter := le_antisymm hle (le_of_not_lt hlt)
      rw [newtonRun]
      simp [hlt, hit]

/-- C1: if the iteration count exceeds `maxiter` without convergence and
divergence continuation is disabled, the Newton solver raises the fatal
`RuntimeError`; with continuation enabled, a caught divergence resets the
unknowns to their pre-iteration start values, re-randomizes the PTC factor
within the configured range, increments the retry counter (bounded by 50),
and restarts the iteration from 0; a retry counter at the bound makes the
loop exit fatally. -/
theorem newton_divergence_policy
    (cfg : NewtonConfig) (obs : List IterObs) (s : NewtonState) (o : IterObs) :
    (cfg.divcontPTC = false → (∀ x ∈ obs, x.converged = false) →
      cfg.maxiter0 ≤ obs.length → newton cfg obs = NewtonResult.fatal cfg.maxiter0)
    ∧
    (cfg.divcontPTC = true → o.err = true → o.converged = false →
      (newtonBody cfg s o).it = 0 ∧
      (newtonBody cfg s o).u = cfg.u_start ∧
      (newtonBody cfg s o).counter_adapt = s.counter_adapt + 1 ∧
      (newtonBody cfg s o).PTC = true ∧
      (newtonBody cfg s o).k_PTC = cfg.k_PTC_initial * o.randfac ∧
      (cfg.randlo ≤ o.randfac → o.randfac ≤ cfg.randhi → 0 ≤ cfg.k_PTC_initial →
        cfg.k_PTC_initial * cfg.randlo ≤ (newtonBody cfg s o).k_PTC ∧
        (newtonBody cfg s o).k_PTC ≤ cfg.k_PTC_initial * cfg.randhi))
    ∧
    (50 ≤ s.counter_adapt → newtonRun cfg obs s = NewtonResult.fatal s.it) := by
  refine ⟨?_, ?_, ?_⟩
  · intro hdc hconv hlen
    exact newtonRun_fatal_aux cfg hdc obs (initState cfg) hconv
      (by simpa [initState] using hlen) (by simp [initState]) (by simp [initState])
  · intro hdc herr hcv
    refine ⟨?_, ?_, ?_, ?_, ?_, ?_⟩
    · simp [newtonBody, hdc, herr, hcv]
    · simp [newtonBody, hdc, herr, hcv]
    · simp [newtonBody, hdc, herr, hcv]
    · simp [newtonBody, hdc, herr, hcv]
    · simp [newtonBody, hdc, herr, hcv]
    · intro hlo hhi hk0
      have hk : (newtonBody cfg s o).k_PTC = cfg.k_PTC_initial * o.randfac := by
        simp [newtonBody, hdc, herr, hcv]
      rw [hk]
      exact ⟨mul_le_mul_of_nonneg_left hlo hk0, mul_le_mul_of_nonneg_left hhi hk0⟩
  · intro hcnt
    rw [newtonRun.eq_def]
    have : ¬ (s.it < s.maxiter ∧ s.counter_adapt < 50) := by omega
    simp [this]

/-- Concrete solver configuration without divergence continuation. -/
def cfgA : NewtonConfig := ⟨2, false, false, 1/10, 17/20, 27/20, 0⟩

/-- Concrete solver configuration with divergence continuation (`PTC`). -/
def cfgB : NewtonConfig := ⟨25, true, false, 1/10, 17/20, 27/20, 0⟩

/-- A non-converged, non-diverged iteration observation. -/
def obsF : IterObs := ⟨0, 1, false, 1, false⟩

/-- A diverged iteration observation. -/
def obsE : IterObs := ⟨0, 1, true, 1, false⟩

theorem newton_divergence_policy_witness :
    newton cfgA [obsF, obsF] = NewtonResult.fatal 2 ∧
    (newtonBody cfgB ⟨3, 250, 1/5, 2, true, 1, 7⟩ obsE).it = 0 ∧
    (newtonBody cfgB ⟨3, 250, 1/5, 2, true, 1, 7⟩ obsE).u = 0 ∧
    (newtonBody cfgB ⟨3, 250, 1/5, 2, true, 1, 7⟩ obsE).counter_adapt = 3 ∧
    (newtonBody cfgB ⟨3, 250, 1/5, 2, true, 1, 7⟩ obsE).PTC = true ∧
    (newtonBody cfgB ⟨3, 250, 1/5, 2, true, 1, 7⟩ obsE).k_PTC = 1/10 * 1 ∧
    (1/10 * (17/20) ≤ (newtonBody cfgB ⟨3, 250, 1/5, 2, true, 1, 7⟩ obsE).k_PTC ∧
      (newtonBody cfgB ⟨3, 250, 1/5, 2, true, 1, 7⟩ obsE).k_PTC ≤ 1/10 * (27/20)) ∧
    newtonRun cfgB [] ⟨5, 25, 1, 50, false, 0, 0⟩ = NewtonResult.fatal 5 := by
  have h1 := (newton_divergence_policy cfgA [obsF, obsF]
    ⟨5, 25, 1, 50, false, 0, 0⟩ obsE).1 rfl (by decide) (by decide)
  have h2 := (newton_divergence_policy cfgB [obsF, obsF]
    ⟨3, 250, 1/5, 2, true, 1, 7⟩ obsE).2.1 rfl rfl rfl
  have h3 := (newton_divergence_policy cfgB []
    ⟨5, 25, 1, 50, false, 0, 0⟩ obsE).2.2 (by decide)
  exact ⟨h1, h2.1, h2.2.1, h2.2.2.1, h2.2.2.2.1, h2.2.2.2.2.1,
    h2.2.2.2.2.2 (by norm_num [cfgB, obsE]) (by norm_num [cfgB, obsE])
      (by norm_num [cfgB]), h3⟩

/-- C4: in every iteration after the first, with PTC active and a positive
previous residual norm (and no divergence reset in this iteration), the PTC
factor is updated to `k * (res_current / res_last)`: it grows when the
residual norm grows and shrinks when the residual norm shrinks. -/
theorem ptc_update_rule (cfg : NewtonConfig) (s : NewtonState) (o : IterObs)
    (hP : s.PTC = true) (hit : 1 ≤ s.it) (hres : 0 < s.res_last)
    (herr : cfg.divcontPTC = true → o.err = false) :
    (newtonBody cfg s o).k_PTC = s.k_PTC * (o.resnorm / s.res_last) ∧
    (0 < s.k_PTC → s.res_last < o.resnorm →
      s.k_PTC < (newtonBody cfg s o).k_PTC) ∧
    (0 < s.k_PTC → 0 ≤ o.resnorm → o.resnorm < s.res_last →
      (newtonBody cfg s o).k_PTC < s.k_PTC) := by
  have h1 : 1 < s.it + 1 := by omega
  have hk : (newtonBody cfg s o).k_PTC = s.k_PTC * (o.resnorm / s.res_last) := by
    by_cases hdc : cfg.divcontPTC = true
    · have he := herr hdc
      by_cases hcv : o.converged = true
      · simp [newtonBody, hP, hres, h1, hdc, he, hcv]
      · simp [newtonBody, hP, hres, h1, hdc, he, hcv]
    · have hdc' : cfg.divcontPTC = false := by
        cases hb : cfg.divcontPTC
        · rfl
        · exact absurd hb hdc
      by_cases hcv : o.converged = true
      · simp [newtonBody, hP, hres, h1, hdc', hcv]
      · simp [newtonBody, hP, hres, h1, hdc', hcv]
  refine ⟨hk, ?_, ?_⟩
  · intro hk0 hgt
    have hrat : 1 < o.resnorm / s.res_last := (one_lt_div hres).mpr hgt
    calc s.k_PTC = s.k_PTC * 1 := (mul_one _).symm
      _ < s.k_PTC * (o.resnorm / s.res_last) := by
          exact mul_lt_mul_of_pos_left hrat hk0
      _ = (newtonBody cfg s o).k_PTC := hk.symm
  · intro hk0 hnn hlt
    have hrat : o.resnorm / s.res_last < 1 := (div_lt_one hres).mpr hlt
    calc (newtonBody cfg s o).k_PTC = s.k_PTC * (o.resnorm / s.res_last) := hk
      _ < s.k_PTC * 1 := mul_lt_mul_of_pos_left hrat hk0
      _ = s.k_PTC := mul_one _

/-- A growing-residual iteration observation. -/
def obsG : IterObs := ⟨0, 2, false, 1, false⟩

/-- A shrinking-residual iteration observation. -/
def obsS : IterObs := ⟨0, 1/2, false, 1, false⟩

theorem ptc_update_rule_witness :
    (newtonBody cfgA ⟨2, 25, 1/2, 0, true, 1, 0⟩ obsG).k_PTC = 1/2 * (2 / 1) ∧
    (1/2 : ℚ) < (newtonBody cfgA ⟨2, 25, 1/2, 0, true, 1, 0⟩ obsG).k_PTC ∧
    (newtonBody cfgA ⟨2, 25, 1/2, 0, true, 1, 0⟩ obsS).k_PTC < 1/2 := by
  have hg := ptc_update_rule cfgA ⟨2, 25, 1/2, 0, true, 1, 0⟩ obsG
    rfl (by norm_num) (by norm_num) (by norm_num [cfgA])
  have hs := ptc_update_rule cfgA ⟨2, 25, 1/2, 0, true, 1, 0⟩ obsS
    rfl (by norm_num) (by norm_num) (by norm_num [cfgA])
  exact ⟨hg.1, hg.2.1 (by norm_num) (by norm_num [obsG]),
    hs.2.2 (by norm_num) (by norm_num [obsS]) (by norm_num [obsS])⟩

/-! ## 0D cardiovascular model base class (cardiovascular0D.py,
`cardiovascular0Dbase`)

State vectors and matrices are embedded as total functions `ℕ → ℚ` resp.
`ℕ → ℕ → ℚ` together with explicit bounds (`numdof`, ownership ranges);
updates leave entries outside the written range untouched. -/

/-- `set_prescribed_variables(x, r, K, val, index_prescribed)`: overwrite the
residual entry (when the index is in the ownership range `[xs, xe)` of `x`)
with `x[idx] - val`, and overwrite row `idx` of `K` with the identity row.
Returns the updated `(r, K)`. -/
def set_prescribed_variables (numdof : ℕ) (x r : ℕ → ℚ) (K : ℕ → ℕ → ℚ)
    (val : ℚ) (index_prescribed xs xe : ℕ) : (ℕ → ℚ) × (ℕ → ℕ → ℚ) :=
  let r' := fun i =>
    if i = index_prescribed ∧ xs ≤ index_prescribed ∧ index_prescribed < xe then
      x index_prescribed - val
    else r i
  let K' := fun i j =>
    if i = index_prescribed ∧ i < numdof ∧ j < numdof then
      (if j = index_prescribed then (1 : ℚ) else 0)
    else K i j
  (r', K')

/-- C2: after `set_prescribed_variables(x, r, K, val, idx)` with
`idx < numdof` inside the ownership range of `x`, row `idx` of `K` is the
identity row and `r[idx]` equals `x[idx] - val` exactly; all other residual
entries and matrix rows are untouched. -/
theorem set_prescribed_variables_spec (numdof : ℕ) (x r : ℕ → ℚ)
    (K : ℕ → ℕ → ℚ) (val : ℚ) (idx xs xe : ℕ)
    (hn : idx < numdof) (hxs : xs ≤ idx) (hxe : idx < xe) :
    (set_prescribed_variables numdof x r K val idx xs xe).1 idx = x idx - val ∧
    (∀ j, j < numdof → j ≠ idx →
      (set_prescribed_variables numdof x r K val idx xs xe).2 idx j = 0) ∧
    (set_prescribed_variables numdof x r K val idx xs xe).2 idx idx = 1 ∧
    (∀ i, i ≠ idx →
      (set_prescribed_variables numdof x r K val idx xs xe).1 i = r i) ∧
    (∀ i j, i ≠ idx →
      (set_prescribed_variables numdof x r K val idx xs xe).2 i j = K i j) := by
  refine ⟨?_, ?_, ?_, ?_, ?_⟩
  · simp [set_prescribed_variables, hxs, hxe]
  · intro j hj hne
    simp [set_prescribed_variables, hn, hj, hne]
  · simp [set_prescribed_variables, hn]
  · intro i hne
    simp [set_prescribed_variables, hne]
  · intro i j hne
    simp [set_prescribed_variables, hne]

theorem set_prescribed_variables_spec_witness :
    (set_prescribed_variables 3 (fun i => (i : ℚ) + 2) (fun _ => 5)
      (fun _ _ => 7) 9 1 0 3).1 1 = ((1 : ℚ) + 2) - 9 ∧
    (∀ j, j < 3 → j ≠ 1 →
      (set_prescribed_variables 3 (fun i => (i : ℚ) + 2) (fun _ => 5)
        (fun _ _ => 7) 9 1 0 3).2 1 j = 0) ∧
    (set_prescribed_variables 3 (fun i => (i : ℚ) + 2) (fun _ => 5)
      (fun _ _ => 7) 9 1 0 3).2 1 1 = 1 := by
  have h := set_prescribed_variables_spec 3 (fun i => (i : ℚ) + 2) (fun _ => 5)
    (fun _ _ => 7) 9 1 0 3 (by decide) (by decide) (by decide)
  exact ⟨h.1, h.2.1, h.2.2.1⟩

/-! ### Symbolic expressions, differentiation, compilation, and `evaluate`

The source builds the model equations as Sympy expressions in the unknowns
`x_`, the coupling symbols `c_`, the time symbol `t_` and the external
function symbols `fnc_`, differentiates them with `sp.diff` against the
unknowns (`set_stiffness`), and compiles them with `sp.lambdify`
(`lambdify_expressions`).  We embed the expression language as a small AST
with exact symbolic differentiation and evaluation. -/

/-- Symbolic expression over the unknown symbols `x_ i`, coupling symbols
`c_ i`, the time symbol `t_`, and external function symbols `fnc_ i`. -/
inductive Expr0D where
  | const (q : ℚ)
  | xvar (i : ℕ)
  | cvar (i : ℕ)
  | tvar
  | fvar (i : ℕ)
  | add (a b : Expr0D)
  | mul (a b : Expr0D)
  | neg (a : Expr0D)
deriving DecidableEq

/-- Symbolic derivative with respect to the unknown symbol `x_ j`
(the `sp.diff(·, self.x_[j])` of `set_stiffness`). -/
def Expr0D.diffx : Expr0D → ℕ → Expr0D
  | const _, _ => const 0
  | xvar i, j => const (if i = j then 1 else 0)
  | cvar _, _ => const 0
  | tvar, _ => const 0
  | fvar _, _ => const 0
  | add a b, j => add (a.diffx j) (b.diffx j)
  | mul a b, j => add (mul (a.diffx j) b) (mul a (b.diffx j))
  | neg a, j => neg (a.diffx j)

/-- Numeric evaluation at `(x, c, t, fnc)` (the compiled callable produced by
`sp.lambdify([self.x_, self.c_, self.t_, self.fnc_], ·)`). -/
def Expr0D.eval : Expr0D → (ℕ → ℚ) → (ℕ → ℚ) → ℚ → (ℕ → ℚ) → ℚ
  | const q, _, _, _, _ => q
  | xvar i, x, _, _, _ => x i
  | cvar i, _, c, _, _ => c i
  | tvar, _, _, t, _ => t
  | fvar i, _, _, _, fnc => fnc i
  | add a b, x, c, t, fnc => a.eval x c t fnc + b.eval x c t fnc
  | mul a b, x, c, t, fnc => a.eval x c t fnc * b.eval x c t fnc
  | neg a, x, c, t, fnc => - a.eval x c t fnc

/-- The symbolic tables of a 0D model: equation count `numdof`, the
time-integration factor `theta`, and the symbolic right-hand-side parts
`df_` (rate part) and `f_` (algebraic part). -/
structure Model0D where
  numdof : ℕ
  theta : ℚ
  df_ : ℕ → Expr0D
  f_ : ℕ → Expr0D

/-- `set_stiffness`: the symbolic Jacobian table `Kdf_[i][j] = ∂df_i/∂x_j`. -/
def set_stiffness_Kdf (m : Model0D) : ℕ → ℕ → Expr0D :=
  fun i j => (m.df_ i).diffx j

/-- `set_stiffness`: the symbolic Jacobian table `Kf_[i][j] = ∂f_i/∂x_j`. -/
def set_stiffness_Kf (m : Model0D) : ℕ → ℕ → Expr0D :=
  fun i j => (m.f_ i).diffx j

/-- `lambdify_expressions` for the Jacobian tables: compile each symbolic
entry into a numeric callable over `(x, c, t, fnc)`. -/
def lambdify_Kdf (m : Model0D) : ℕ → ℕ → (ℕ → ℚ) → (ℕ → ℚ) → ℚ → (ℕ → ℚ) → ℚ :=
  fun i j x c t fnc => (set_stiffness_Kdf m i j).eval x c t fnc

/-- `lambdify_expressions` for the `Kf_` table. -/
def lambdify_Kf (m : Model0D) : ℕ → ℕ → (ℕ → ℚ) → (ℕ → ℚ) → ℚ → (ℕ → ℚ) → ℚ :=
  fun i j x c t fnc => (set_stiffness_Kf m i j).eval x c t fnc

/-- The `K` branch of `evaluate(x, dt, t, ..., K, c, ..., fnc)`: for all
`i, j < numdof` fill `K[i,j] = Kdf__[i][j](x,c,t,fnc)/dt +
Kf__[i][j](x,c,t,fnc) * theta`; other entries are untouched. -/
def evaluate_K (m : Model0D) (x c : ℕ → ℚ) (t dt : ℚ) (fnc : ℕ → ℚ)
    (K : ℕ → ℕ → ℚ) : ℕ → ℕ → ℚ :=
  fun i j =>
    if i < m.numdof ∧ j < m.numdof then
      lambdify_Kdf m i j x c t fnc / dt + lambdify_Kf m i j x c t fnc * m.theta
    else K i j

/-- C3: when the Jacobian output is requested, `evaluate` fills `K[i,j]`
(for `i, j < numdof`, given `dt > 0`) with the compiled value of
`∂df_i/∂x_j / dt + theta * ∂f_i/∂x_j`, the derivatives being the symbolic
ones produced by `set_stiffness`. -/
theorem evaluate_K_spec (m : Model0D) (x c : ℕ → ℚ) (t dt : ℚ) (fnc : ℕ → ℚ)
    (K : ℕ → ℕ → ℚ) (i j : ℕ) (hi : i < m.numdof) (hj : j < m.numdof)
    (hdt : 0 < dt) :
    evaluate_K m x c t dt fnc K i j =
      ((m.df_ i).diffx j).eval x c t fnc / dt +
        m.theta * ((m.f_ i).diffx j).eval x c t fnc := by
  simp [evaluate_K, lambdify_Kdf, lambdify_Kf, set_stiffness_Kdf,
    set_stiffness_Kf, hi, hj, mul_comm]

/-- A concrete two-equation model: `df_0 = x_0 * x_1`, `f_0 = -x_1 + c_0`,
`df_1 = t`, `f_1 = fnc_0 * x_0`. -/
def mW : Model0D where
  numdof := 2
  theta := 1/2
  df_ := fun i => if i = 0 then Expr0D.mul (Expr0D.xvar 0) (Expr0D.xvar 1) else Expr0D.tvar
  f_ := fun i => if i = 0 then Expr0D.add (Expr0D.neg (Expr0D.xvar 1)) (Expr0D.cvar 0)
    else Expr0D.mul (Expr0D.fvar 0) (Expr0D.xvar 0)

theorem evaluate_K_spec_witness :
    evaluate_K mW (fun i => (i : ℚ) + 3) (fun _ => 11) 7 2 (fun _ => 13)
        (fun _ _ => 0) 1 0 =
      ((mW.df_ 1).diffx 0).eval (fun i => (i : ℚ) + 3) (fun _ => 11) 7 (fun _ => 13) / 2 +
        mW.theta * ((mW.f_ 1).diffx 0).eval (fun i => (i : ℚ) + 3) (fun _ => 11) 7 (fun _ => 13) := by
  exact evaluate_K_spec mW (fun i => (i : ℚ) + 3) (fun _ => 11) 7 2 (fun _ => 13)
    (fun _ _ => 0) 1 0 (by norm_num [mW]) (by norm_num [mW]) (by norm_num)

/-! ### Cycle-boundary detection (`IsRelativeEqualTo`, `ModuloIsRelativeZero`,
`cycle_check`)

Python float division by zero raises `ZeroDivisionError`; fallible
computations are therefore embedded in `Except Unit`. -/

/-- Truncation toward zero, as used by C's (and Python's) `math.fmod`. -/
def ratTrunc (q : ℚ) : ℤ :=
  if 0 ≤ q then ⌊q⌋ else ⌈q⌉

/-- `math.fmod(x, y) = x - y * trunc(x / y)` (for `y ≠ 0`). -/
def fmodQ (x y : ℚ) : ℚ :=
  x - y * (ratTrunc (x / y) : ℚ)

/-- `IsRelativeEqualTo(A, B, Ref) = |A - B| / Ref < 1e-12`; a zero `Ref`
raises `ZeroDivisionError`. -/
def IsRelativeEqualTo (A B Ref : ℚ) : Except Unit Bool :=
  if Ref = 0 then Except.error ()
  else Except.ok (decide (|A - B| / Ref < 1 / 10 ^ 12))

/-- `ModuloIsRelativeZero(value, modulo, Ref) =
IsRelativeEqualTo(fmod(value + modulo/2, modulo) - modulo/2, 0.0, Ref)`. -/
def ModuloIsRelativeZero (value modulo Ref : ℚ) : Except Unit Bool :=
  IsRelativeEqualTo (fmodQ (value + modulo / 2) modulo - modulo / 2) 0 Ref

/-- `cycle_check(var, varTc, varTc_old, t, cycle, ..., induce_pert_after_cycl)`
restricted to the data the claims are about: returns
`(is_periodic, varTc, varTc_old, cycle)` after the call.  `check_periodic` is
implemented by the derived model classes and is passed in abstractly; the
optional writing of initial-condition files is external output and omitted.
`[vs, ve)` is the ownership range. -/
def cycle_check (T_cycl : ℚ)
    (check_periodic : (ℕ → ℚ) → (ℕ → ℚ) → Bool)
    (var varTc varTc_old : ℕ → ℚ) (t : ℚ) (cycle : ℤ)
    (vs ve : ℕ) (induce_pert_after_cycl : ℤ) :
    Except Unit (Bool × (ℕ → ℚ) × (ℕ → ℚ) × ℤ) :=
  if 0 < T_cycl then
    match ModuloIsRelativeZero t T_cycl t with
    | Except.error e => Except.error e
    | Except.ok b =>
      if b then
        let varTc1 := fun i => if vs ≤ i ∧ i < ve then var i else varTc i
        let isp0 := check_periodic varTc1 varTc_old
        let is_periodic := if cycle ≤ induce_pert_after_cycl then false else isp0
        let varTc_old1 := fun i => if vs ≤ i ∧ i < ve then varTc1 i else varTc_old i
        Except.ok (is_periodic, varTc1, varTc_old1, cycle + 1)
      else
        Except.ok (false, varTc, varTc_old, cycle)
  else
    Except.ok (false, varTc, varTc_old, cycle)

/-- C5: at a cycle boundary (`T_cycl > 0` and the tolerant modulo test
succeeds), `cycle_check` returns `is_periodic = False` whenever the cycle
counter has not yet passed `induce_pert_after_cycl` — whatever
`check_periodic` says — and in all cases rolls `varTc_old ← varTc` on the
ownership range and increments the cycle counter. -/
theorem cycle_check_boundary (T_cycl : ℚ)
    (check_periodic : (ℕ → ℚ) → (ℕ → ℚ) → Bool)
    (var varTc varTc_old : ℕ → ℚ) (t : ℚ) (cycle : ℤ)
    (vs ve : ℕ) (ip : ℤ)
    (hT : 0 < T_cycl) (hb : ModuloIsRelativeZero t T_cycl t = Except.ok true) :
    ∃ isp newTc newTcOld,
      cycle_check T_cycl check_periodic var varTc varTc_old t cycle vs ve ip =
        Except.ok (isp, newTc, newTcOld, cycle + 1) ∧
      (∀ i, vs ≤ i → i < ve → newTcOld i = newTc i ∧ newTc i = var i) ∧
      (cycle ≤ ip → isp = false) := by
  refine ⟨(if cycle ≤ ip then false else
      check_periodic (fun i => if vs ≤ i ∧ i < ve then var i else varTc i) varTc_old),
    (fun i => if vs ≤ i ∧ i < ve then var i else varTc i), ?_, ?_, ?_, ?_⟩
  · exact fun i => if vs ≤ i ∧ i < ve then
      (if vs ≤ i ∧ i < ve then var i else varTc i) else varTc_old i
  · rw [cycle_check.eq_def]
    simp only [hT, if_true, hb]
  · intro i h1 h2
    constructor
    · simp [h1, h2]
    · simp [h1, h2]
  · intro hc
    simp [hc]

theorem cycle_check_boundary_witness :
    (0 : ℚ) < 1 ∧ ModuloIsRelativeZero 1 1 1 = Except.ok true ∧
    ∃ isp newTc newTcOld,
      cycle_check 1 (fun _ _ => true) (fun i => (i : ℚ)) (fun _ => 5) (fun _ => 6)
          1 2 0 3 4 =
        Except.ok (isp, newTc, newTcOld, 2 + 1) ∧
      (∀ i, 0 ≤ i → i < 3 → newTcOld i = newTc i ∧ newTc i = (i : ℚ)) ∧
      (2 ≤ (4 : ℤ) → isp = false) := by
  have hb : ModuloIsRelativeZero 1 1 1 = Except.ok true := by
    have hfl : ⌊(1 + (1 : ℚ) / 2) / 1⌋ = 1 := by
      rw [Int.floor_eq_iff] <;> norm_num
    have h1 : fmodQ (1 + (1 : ℚ) / 2) 1 = 1 / 2 := by
      simp only [fmodQ, ratTrunc]
      rw [if_pos (by norm_num), hfl]
      norm_num
    rw [ModuloIsRelativeZero, h1]
    norm_num [IsRelativeEqualTo]
  exact ⟨by norm_num, hb,
    cycle_check_boundary 1 (fun _ _ => true) (fun i => (i : ℚ)) (fun _ => 5)
      (fun _ => 6) 1 2 0 3 4 (by norm_num) hb⟩

/-- C10: the relative-comparison helpers are partial: a zero reference value
makes `IsRelativeEqualTo` (hence `ModuloIsRelativeZero`) raise
`ZeroDivisionError` instead of returning a boolean, and `cycle_check` at
`t = 0` with `T_cycl > 0` fails with that error, since it passes `t` itself
as the reference. -/
theorem relative_zero_check_partial (A B value modulo T_cycl : ℚ)
    (check_periodic : (ℕ → ℚ) → (ℕ → ℚ) → Bool)
    (var varTc varTc_old : ℕ → ℚ) (cycle : ℤ) (vs ve : ℕ) (ip : ℤ)
    (hT : 0 < T_cycl) :
    IsRelativeEqualTo A B 0 = Except.error () ∧
    ModuloIsRelativeZero value modulo 0 = Except.error () ∧
    cycle_check T_cycl check_periodic var varTc varTc_old 0 cycle vs ve ip =
      Except.error () := by
  refine ⟨?_, ?_, ?_⟩
  · simp [IsRelativeEqualTo]
  · simp [ModuloIsRelativeZero, IsRelativeEqualTo]
  · rw [cycle_check.eq_def]
    simp only [hT, if_true]
    simp [ModuloIsRelativeZero, IsRelativeEqualTo]

theorem relative_zero_check_partial_witness :
    IsRelativeEqualTo 3 4 0 = Except.error () ∧
    ModuloIsRelativeZero 5 2 0 = Except.error () ∧
    cycle_check 1 (fun _ _ => true) (fun i => (i : ℚ)) (fun _ => 5) (fun _ => 6)
      0 2 0 3 4 = Except.error () := by
  exact relative_zero_check_partial 3 4 5 2 1 (fun _ _ => true) (fun i => (i : ℚ))
    (fun _ => 5) (fun _ => 6) 2 0 3 4 (by norm_num)

/-! ### Disease-perturbation induction (`induce_perturbation`)

The rebuild calls issued when the perturbation fires
(`setup_arrays`, `set_chamber_interfaces`, `equation_map`, `set_stiffness`,
`lambdify_expressions`) are recorded in an event trace, in call order. -/

/-- The rebuild actions `induce_perturbation` can issue. -/
inductive RebuildStep where
  | setup_arrays
  | set_chamber_interfaces
  | equation_map
  | set_stiffness
  | lambdify_expressions
deriving DecidableEq, BEq

/-- The five rebuild calls of `induce_perturbation`, in source order. -/
def rebuildSeq : List RebuildStep :=
  [RebuildStep.setup_arrays, RebuildStep.set_chamber_interfaces,
   RebuildStep.equation_map, RebuildStep.set_stiffness,
   RebuildStep.lambdify_expressions]

/-- The model fields `induce_perturbation` can touch: the four valve
resistance parameters, the one-shot flag, and the trace of rebuild calls
issued so far. -/
structure PerturbState where
  R_vin_l_max : ℚ
  R_vin_l_min : ℚ
  R_vout_l_max : ℚ
  R_vout_l_min : ℚ
  have_induced_pert : Bool
  trace : List RebuildStep
deriving DecidableEq

/-- `induce_perturbation(perturb_type, cycle, induce_pert_after_cycl)`:
guarded by `induce_pert_after_cycl > 0`, the one-shot flag, and
`cycle > induce_pert_after_cycl`; on firing, overwrite the valve resistance
selected by the perturbation type, issue the rebuild calls, and set the
flag. -/
def induce_perturbation (s : PerturbState) (perturb_type : String)
    (cycle induce_pert_after_cycl : ℤ) : PerturbState :=
  if 0 < induce_pert_after_cycl ∧ s.have_induced_pert = false then
    if induce_pert_after_cycl < cycle then
      let s1 := if perturb_type = "mr" then { s with R_vin_l_max := 1/100000 } else s
      let s2 := if perturb_type = "ms" then { s1 with R_vin_l_min := 25/1000000 } else s1
      let s3 := if perturb_type = "ar" then { s2 with R_vout_l_max := 5/100000 } else s2
      let s4 := if perturb_type = "as" then { s3 with R_vout_l_min := 5/100000 } else s3
      { s4 with trace := s.trace ++ rebuildSeq, have_induced_pert := true }
    else s
  else s

/-- C6: `induce_perturbation` is a no-op whenever
`induce_pert_after_cycl ≤ 0`, or the one-shot flag is set, or
`cycle ≤ induce_pert_after_cycl`; when it fires it sets the flag, so any
second call, with any arguments, leaves the state unchanged. -/
theorem induce_perturbation_oneshot (s : PerturbState) (pt pt' : String)
    (cycle after cycle' after' : ℤ) :
    ((after ≤ 0 ∨ s.have_induced_pert = true ∨ cycle ≤ after) →
      induce_perturbation s pt cycle after = s) ∧
    (0 < after → s.have_induced_pert = false → after < cycle →
      (induce_perturbation s pt cycle after).have_induced_pert = true ∧
      induce_perturbation (induce_perturbation s pt cycle after) pt' cycle' after' =
        induce_perturbation s pt cycle after) := by
  constructor
  · intro h
    rcases h with h | h | h
    · rw [induce_perturbation, if_neg]
      rintro ⟨h1, -⟩; omega
    · rw [induce_perturbation, if_neg]
      rintro ⟨-, h2⟩; rw [h] at h2; simp at h2
    · rw [induce_perturbation]
      split
      · rw [if_neg]; omega
      · rfl
  · intro h0 hflag hcyc
    have hfire : (induce_perturbation s pt cycle after).have_induced_pert = true := by
      rw [induce_perturbation, if_pos ⟨h0, hflag⟩, if_pos hcyc]
    refine ⟨hfire, ?_⟩
    rw [induce_perturbation]
    rw [if_neg]
    rintro ⟨-, h2⟩
    rw [hfire] at h2
    simp at h2

theorem induce_perturbation_oneshot_witness :
    induce_perturbation ⟨1, 2, 3, 4, false, []⟩ "mr" 2 3 = ⟨1, 2, 3, 4, false, []⟩ ∧
    (induce_perturbation ⟨1, 2, 3, 4, false, []⟩ "mr" 5 3).have_induced_pert = true ∧
    induce_perturbation (induce_perturbation ⟨1, 2, 3, 4, false, []⟩ "mr" 5 3) "as" 9 2 =
      induce_perturbation ⟨1, 2, 3, 4, false, []⟩ "mr" 5 3 := by
  have h1 := (induce_perturbation_oneshot ⟨1, 2, 3, 4, false, []⟩ "mr" "as" 2 3 9 2).1
    (Or.inr (Or.inr (by norm_num)))
  have h2 := (induce_perturbation_oneshot ⟨1, 2, 3, 4, false, []⟩ "mr" "as" 5 3 9 2).2
    (by norm_num) rfl (by norm_num)
  exact ⟨h1, h2.1, h2.2⟩

/-- C7 counterexample input: a fresh state with an empty trace. -/
def pstate0 : PerturbState := ⟨1, 2, 3, 4, false, []⟩

/-- C7, counterexample: the claim puts the recompilation
(`lambdify_expressions`) before the re-differentiation (`set_stiffness`);
in the trace of a firing `induce_perturbation` the recompilation comes
after the re-differentiation, not before. -/
theorem induce_perturbation_order_counterexample :
    ¬ (List.indexOf RebuildStep.lambdify_expressions
          (induce_perturbation pstate0 "mr" 3 1).trace <
        List.indexOf RebuildStep.set_stiffness
          (induce_perturbation pstate0 "mr" 3 1).trace) := by
  decide

/-- C7 (amended): whenever the perturbation fires, the rebuild trace gains
exactly the calls `setup_arrays`, `set_chamber_interfaces`, `equation_map`,
`set_stiffness`, `lambdify_expressions`, in that order: the symbolic
equations are rebuilt first, then the Jacobians are re-differentiated, then
the numeric callables are recompiled. -/
theorem induce_perturbation_rebuild_order (s : PerturbState) (pt : String)
    (cycle after : ℤ)
    (h0 : 0 < after) (hflag : s.have_induced_pert = false) (hcyc : after < cycle) :
    (induce_perturbation s pt cycle after).trace = s.trace ++ rebuildSeq ∧
    List.indexOf RebuildStep.equation_map rebuildSeq <
      List.indexOf RebuildStep.set_stiffness rebuildSeq ∧
    List.indexOf RebuildStep.set_stiffness rebuildSeq <
      List.indexOf RebuildStep.lambdify_expressions rebuildSeq := by
  refine ⟨?_, by decide, by decide⟩
  rw [induce_perturbation, if_pos ⟨h0, hflag⟩, if_pos hcyc]

theorem induce_perturbation_rebuild_order_witness :
    (induce_perturbation pstate0 "ms" 4 2).trace = pstate0.trace ++ rebuildSeq ∧
    List.indexOf RebuildStep.equation_map rebuildSeq <
      List.indexOf RebuildStep.set_stiffness rebuildSeq ∧
    List.indexOf RebuildStep.set_stiffness rebuildSeq <
      List.indexOf RebuildStep.lambdify_expressions rebuildSeq := by
  exact induce_perturbation_rebuild_order pstate0 "ms" 4 2 (by norm_num) rfl (by norm_num)

/-! ### Time-varying elastance (`E_t`) -/

/-- `E_t(E_A, E_min, t, t0, act_dur)`: half-cosine activation inside
`[t0, t0 + act_dur]`, baseline outside; returns `E_A * y + E_min`. -/
noncomputable def E_t (E_A E_minv t t0 act_dur : ℝ) : ℝ :=
  let y := if t0 ≤ t ∧ t ≤ t0 + act_dur then
      0.5 * (1 - Real.cos (2 * Real.pi * (t - t0) / act_dur))
    else 0
  E_A * y + E_minv

/-- C8: for `act_dur > 0`, `E_t` equals `E_min` strictly before `t0` and
strictly after `t0 + act_dur`, and equals `E_min + E_A` at the mid-activation
peak `t0 + act_dur / 2`. -/
theorem E_t_profile (E_A E_minv t t0 act_dur : ℝ) (hdur : 0 < act_dur) :
    (t < t0 → E_t E_A E_minv t t0 act_dur = E_minv) ∧
    (t0 + act_dur < t → E_t E_A E_minv t t0 act_dur = E_minv) ∧
    E_t E_A E_minv (t0 + act_dur / 2) t0 act_dur = E_minv + E_A := by
  refine ⟨?_, ?_, ?_⟩
  · intro h
    rw [E_t]
    have : ¬ (t0 ≤ t ∧ t ≤ t0 + act_dur) := by
      rintro ⟨h1, -⟩; linarith
    simp only [this, if_false]
    ring
  · intro h
    rw [E_t]
    have : ¬ (t0 ≤ t ∧ t ≤ t0 + act_dur) := by
      rintro ⟨-, h2⟩; linarith
    simp only [this, if_false]
    ring
  · rw [E_t]
    have hc : t0 ≤ t0 + act_dur / 2 ∧ t0 + act_dur / 2 ≤ t0 + act_dur := by
      constructor <;> linarith
    simp only [hc, and_self, if_true]
    have harg : 2 * Real.pi * (t0 + act_dur / 2 - t0) / act_dur = Real.pi := by
      rw [div_eq_iff (ne_of_gt hdur)]
      ring
    rw [harg, Real.cos_pi]
    ring

theorem E_t_profile_witness :
    (0 : ℝ) < 2 ∧
    E_t 3 5 0 1 2 = 5 ∧
    E_t 3 5 4 1 2 = 5 ∧
    E_t 3 5 (1 + 2 / 2) 1 2 = 5 + 3 := by
  have h := E_t_profile 3 5 0 1 2 (by norm_num)
  have h4 := E_t_profile 3 5 4 1 2 (by norm_num)
  exact ⟨by norm_num, h.1 (by norm_num), h4.2.1 (by norm_num), h.2.2⟩

/-! ### Initial-condition files (`write_initial`, `set_initial_from_file`)

`write_initial` prints each value with the `'%.16E'` format (scientific
notation with 16 digits after the point, i.e. rounding to 16 decimal places
of the normalized mantissa); `set_initial_from_file` splits each line into a
key and a value.  A file is embedded as its parsed list of
`(key, value)` line pairs, and the decimal formatting as rounding of the
mantissa at 16 places. -/

/-- Decimal rounding performed by the `'%.16E'` format: round the value at
16 decimal places of its normalized scientific-notation mantissa. -/
def fmt16 (q : ℚ) : ℚ :=
  if q = 0 then 0
  else
    let e : ℤ := Int.log 10 |q|
    (⌊q * (10 : ℚ) ^ ((16 : ℤ) - e) + 1/2⌋ : ℚ) * (10 : ℚ) ^ (e - (16 : ℤ))

/-- `write_initial(path, varTc_old, varTc)`: the two files written
(`initial_data_Tstart.txt` from `varTc_old`, `initial_data_Tend.txt` from
`varTc`), as lists of `(<name>_0, formatted value)` lines following the
insertion order of `varmap`. -/
def write_initial (varmap : List (String × ℕ)) (varTc_old varTc : ℕ → ℚ) :
    List (String × ℚ) × List (String × ℚ) :=
  (varmap.map (fun p => (p.1 ++ "_0", fmt16 (varTc_old p.2))),
   varmap.map (fun p => (p.1 ++ "_0", fmt16 (varTc p.2))))

/-- One line of `set_initial_from_file`'s loop: `pini0D[key] = float(val)`. -/
def dict_insert_line (d : String → Option ℚ) (p : String × ℚ) :
    String → Option ℚ :=
  fun k => if k = p.1 then some p.2 else d k

/-- `set_initial_from_file(initialdata)`: fold the parsed lines into a
dictionary, later lines overriding earlier ones. -/
def set_initial_from_file (lines : List (String × ℚ)) : String → Option ℚ :=
  lines.foldl dict_insert_line (fun _ => none)

theorem dict_foldl_skip (L : List (String × ℚ)) (d : String → Option ℚ)
    (k : String) (h : ∀ p ∈ L, k ≠ p.1) :
    L.foldl dict_insert_line d k = d k := by
  induction L generalizing d with
  | nil => rfl
  | cons q rest ih =>
    rw [List.foldl_cons]
    rw [ih _ (fun p hp => h p (List.mem_cons_of_mem _ hp))]
    simp [dict_insert_line, h q (List.mem_cons_self _ _)]

theorem dict_foldl_mem (L : List (String × ℚ)) (d : String → Option ℚ)
    (k : String) (v : ℚ) (hnd : (L.map Prod.fst).Nodup) (hmem : (k, v) ∈ L) :
    L.foldl dict_insert_line d k = some v := by
  induction L generalizing d with
  | nil => cases hmem
  | cons q rest ih =>
    rw [List.map_cons, List.nodup_cons] at hnd
    rw [List.foldl_cons]
    rcases List.mem_cons.mp hmem with heq | hmem'
    · have hk1 : q.1 = k := by rw [← heq]
      have hskip : ∀ p ∈ rest, k ≠ p.1 := by
        intro p hp hkp
        exact hnd.1 (by rw [hk1, hkp]; exact List.mem_map_of_mem _ hp)
      rw [dict_foldl_skip rest _ k hskip]
      simp [dict_insert_line, ← heq]
    · exact ih _ hnd.2 hmem'

/-- Half-unit-in-the-last-place bound for the `'%.16E'` rounding: the
formatted value agrees with the original to within a relative error of
`10^(-16)` (16 significant digits are preserved). -/
theorem fmt16_rel_error (q : ℚ) : |fmt16 q - q| ≤ |q| / 10 ^ 16 := by
  by_cases hq : q = 0
  · simp [fmt16, hq]
  · have habs : (0 : ℚ) < |q| := abs_pos.mpr hq
    rw [fmt16, if_neg hq]
    set e : ℤ := Int.log 10 |q| with he
    set x : ℚ := q * (10 : ℚ) ^ ((16 : ℤ) - e) with hx
    have hpow_pos : (0 : ℚ) < (10 : ℚ) ^ (e - (16 : ℤ)) := zpow_pos (by norm_num) _
    have hq_eq : q = x * (10 : ℚ) ^ (e - (16 : ℤ)) := by
      rw [hx, mul_assoc, ← zpow_add₀ (by norm_num : (10 : ℚ) ≠ 0)]
      norm_num
    have hfl : |(⌊x + 1/2⌋ : ℚ) - x| ≤ 1/2 := by
      have h1 := Int.floor_le (x + 1/2)
      have h2 := Int.lt_floor_add_one (x + 1/2)
      rw [abs_le]
      constructor <;> linarith
    have step1 : |(⌊x + 1/2⌋ : ℚ) * (10 : ℚ) ^ (e - (16 : ℤ)) - q| =
        |(⌊x + 1/2⌋ : ℚ) - x| * (10 : ℚ) ^ (e - (16 : ℤ)) := by
      conv_lhs => rw [hq_eq]
      rw [← sub_mul, abs_mul, abs_of_pos hpow_pos]
    rw [step1]
    have hsplit : (10 : ℚ) ^ (e - (16 : ℤ)) = (10 : ℚ) ^ e * ((10 : ℚ) ^ (16 : ℤ))⁻¹ := by
      rw [zpow_sub₀ (by norm_num : (10 : ℚ) ≠ 0), div_eq_mul_inv]
    have hlog : (10 : ℚ) ^ e ≤ |q| := Int.zpow_log_le_self (by norm_num) habs
    have hinv_pos : (0 : ℚ) < ((10 : ℚ) ^ (16 : ℤ))⁻¹ := by positivity
    have hmain : |(⌊x + 1/2⌋ : ℚ) - x| * (10 : ℚ) ^ (e - (16 : ℤ)) ≤
        (1/2) * (|q| * ((10 : ℚ) ^ (16 : ℤ))⁻¹) := by
      calc |(⌊x + 1/2⌋ : ℚ) - x| * (10 : ℚ) ^ (e - (16 : ℤ))
          ≤ (1/2) * (10 : ℚ) ^ (e - (16 : ℤ)) :=
            mul_le_mul_of_nonneg_right hfl hpow_pos.le
        _ = (1/2) * ((10 : ℚ) ^ e * ((10 : ℚ) ^ (16 : ℤ))⁻¹) := by rw [hsplit]
        _ ≤ (1/2) * (|q| * ((10 : ℚ) ^ (16 : ℤ))⁻¹) := by
            have := mul_le_mul_of_nonneg_right hlog hinv_pos.le
            linarith
    have hconv : (1/2) * (|q| * ((10 : ℚ) ^ (16 : ℤ))⁻¹) ≤ |q| / 10 ^ 16 := by
      have h16 : ((10 : ℚ) ^ (16 : ℤ))⁻¹ = (10 ^ 16 : ℚ)⁻¹ := by norm_num
      rw [h16, div_eq_mul_inv]
      have hnn : (0 : ℚ) ≤ |q| * ((10 : ℚ) ^ (16 : ℕ))⁻¹ := by positivity
      linarith
    exact le_trans hmain hconv

/-- C9: writing a state vector with `write_initial` and re-reading the file
with `set_initial_from_file` yields a dictionary mapping each `<name>_0` key
to the formatted original value, which agrees with the original value to the
file's 16-significant-digit precision; this holds for the start-of-cycle file
(from `varTc_old`) and the end-of-cycle file (from `varTc`) alike. -/
theorem initial_file_roundtrip (varmap : List (String × ℕ))
    (varTc_old varTc : ℕ → ℚ) (name : String) (i : ℕ)
    (hnd : (varmap.map (fun p => p.1 ++ "_0")).Nodup)
    (hmem : (name, i) ∈ varmap) :
    set_initial_from_file (write_initial varmap varTc_old varTc).2 (name ++ "_0") =
      some (fmt16 (varTc i)) ∧
    set_initial_from_file (write_initial varmap varTc_old varTc).1 (name ++ "_0") =
      some (fmt16 (varTc_old i)) ∧
    |fmt16 (varTc i) - varTc i| ≤ |varTc i| / 10 ^ 16 ∧
    |fmt16 (varTc_old i) - varTc_old i| ≤ |varTc_old i| / 10 ^ 16 := by
  have hkeys : ∀ (w : ℕ → ℚ),
      ((varmap.map (fun p => (p.1 ++ "_0", fmt16 (w p.2)))).map Prod.fst).Nodup := by
    intro w
    rw [List.map_map]
    exact hnd
  refine ⟨?_, ?_, fmt16_rel_error _, fmt16_rel_error _⟩
  · exact dict_foldl_mem _ _ _ _ (hkeys varTc)
      (List.mem_map_of_mem (fun p => (p.1 ++ "_0", fmt16 (varTc p.2))) hmem)
  · exact dict_foldl_mem _ _ _ _ (hkeys varTc_old)
      (List.mem_map_of_mem (fun p => (p.1 ++ "_0", fmt16 (varTc_old p.2))) hmem)

theorem initial_file_roundtrip_witness :
    set_initial_from_file
        (write_initial [("p_v_l", 0), ("q_vin_l", 1)] (fun j => (j : ℚ))
          (fun j => (j : ℚ) + 2)).2 ("q_vin_l" ++ "_0") =
      some (fmt16 ((1 : ℚ) + 2)) ∧
    set_initial_from_file
        (write_initial [("p_v_l", 0), ("q_vin_l", 1)] (fun j => (j : ℚ))
          (fun j => (j : ℚ) + 2)).1 ("q_vin_l" ++ "_0") =
      some (fmt16 (1 : ℚ)) ∧
    |fmt16 ((1 : ℚ) + 2) - ((1 : ℚ) + 2)| ≤ |(1 : ℚ) + 2| / 10 ^ 16 ∧
    |fmt16 (1 : ℚ) - (1 : ℚ)| ≤ |(1 : ℚ)| / 10 ^ 16 := by
  exact initial_file_roundtrip [("p_v_l", 0), ("q_vin_l", 1)] (fun j => (j : ℚ))
    (fun j => (j : ℚ) + 2) "q_vin_l" 1 (by decide) (by decide)

end Ambit
